import Mathlib

/-!
Shallow embedding of the `PeriodicExecutor` class template from
`src/include/PeriodicExecutor.hpp` (repository JoergWall/PeriodicExecutor).

Modelling choices:
* Times (steady-clock instants and millisecond intervals) are `Nat`.
* The user callback is opaque; we store an identifier (`Nat`) and count
  invocations where that matters.
* The timer is modelled by its expiry instant (`expiry`, the value of
  `timer_.expiry()`) together with a flag `armed` recording whether an
  `async_wait` is pending; `timer_.cancel` clears `armed`.
* The worker `boost::thread`, the `work_guard_` and `io_context_` are
  modelled by the booleans `hasWorker`, `workGuard`, `ioStopped`.
* The member functions become pure state transformers.  `start` can fail at
  the `boost::thread` construction (which throws on resource exhaustion); the
  parameter `threadOk` selects that outcome, and the result type records
  whether `start` returned a `Bool` or propagated the exception, together
  with the object state left behind in either case.
* `handle_wait` takes the abort indication (`error == operation_aborted`)
  and the instant `now` at which the handler runs; the instant is unused by
  the body because the C++ code never reads the clock there.  It returns the
  new state and the number of callback invocations performed (0 or 1).
-/

/-- The data members of one `PeriodicExecutor` instance. -/
structure PE where
  callback : Nat
  interval : Nat
  isRunning : Bool
  isPaused : Bool
  expiry : Nat
  armed : Bool
  hasWorker : Bool
  workGuard : Bool
  ioStopped : Bool
  deriving DecidableEq

/-- The freshly constructed instance: both flags false, work guard made,
`io_context` not stopped, no worker thread, no pending wait. -/
def pe0 : PE :=
  { callback := 0, interval := 0, isRunning := false, isPaused := false,
    expiry := 0, armed := false, hasWorker := false, workGuard := true,
    ioStopped := false }

/-- Outcome of `start`: either a normal return carrying the returned `Bool`
and the object state, or propagation of the `boost::thread` construction
exception, still carrying the object state left behind. -/
inductive StartResult where
  | ok (ret : Bool) (s : PE)
  | threadFail (s : PE)
  deriving DecidableEq

/-- The object state after `start`, whichever way it ended. -/
def StartResult.state : StartResult → PE
  | .ok _ s => s
  | .threadFail s => s

/-- `true` exactly when `start` returned normally with `true`. -/
def StartResult.succeeded : StartResult → Bool
  | .ok b _ => b
  | .threadFail _ => false

/-- `PeriodicExecutor::start` (PeriodicExecutor.hpp, lines 194-216).
Guard on `is_running_`; then record callback and interval, set the flags,
arm the timer at `now + interval` (`expires_from_now`), and finally launch
the worker thread, which may throw (`threadOk = false`). -/
def start (s : PE) (now interval cb : Nat) (threadOk : Bool) : StartResult :=
  if s.isRunning then .ok false s
  else
    let s1 : PE :=
      { s with callback := cb, interval := interval, isRunning := true,
               isPaused := false, expiry := now + interval, armed := true }
    if threadOk then .ok true { s1 with hasWorker := true }
    else .threadFail s1

/-- `PeriodicExecutor::stop` (PeriodicExecutor.hpp, lines 229-247).
Early return when not running; otherwise cancel the timer, reset the work
guard, stop the `io_context`, join the worker, and clear both flags. -/
def stop (s : PE) : PE :=
  if !s.isRunning then s
  else
    { s with armed := false, workGuard := false, ioStopped := true,
             hasWorker := false, isRunning := false, isPaused := false }

/-- `PeriodicExecutor::pause` (PeriodicExecutor.hpp, lines 258-266).
Early return when not running or already paused; otherwise cancel the
pending wait and set the paused flag. -/
def pause (s : PE) : PE :=
  if !s.isRunning || s.isPaused then s
  else { s with armed := false, isPaused := true }

/-- `PeriodicExecutor::resume` (PeriodicExecutor.hpp, lines 276-284).
Early return when not running or not paused; otherwise clear the paused
flag and re-arm the wait at `now + interval` (`expires_from_now`). -/
def resume (s : PE) (now : Nat) : PE :=
  if !s.isRunning || !s.isPaused then s
  else { s with isPaused := false, expiry := now + s.interval, armed := true }

/-- `PeriodicExecutor::handle_wait` (PeriodicExecutor.hpp, lines 297-312).
If the wait was aborted (`operation_aborted`) or the instance is paused,
return without invoking the callback and without re-arming.  Otherwise
invoke the callback once and re-arm at `timer_.expiry() + interval_`
(`expires_at`).  The second component counts callback invocations. -/
def handle_wait (s : PE) (aborted : Bool) (_now : Nat) : PE × Nat :=
  if aborted || s.isPaused then ({ s with armed := false }, 0)
  else ({ s with expiry := s.expiry + s.interval, armed := true }, 1)

/-- `handle_wait` after a run of fired (non-aborted) wakes occurring at the
listed instants. -/
def firedWakes (s : PE) (nows : List Nat) : PE :=
  nows.foldl (fun st n => (handle_wait st false n).1) s

/-- A sample state of a started instance (flags as after a successful
`start 35 5 1`): used to instantiate theorems at concrete inputs. -/
def peRun : PE :=
  { callback := 1, interval := 5, isRunning := true, isPaused := false,
    expiry := 40, armed := true, hasWorker := true, workGuard := true,
    ioStopped := false }

/-- A sample paused state (as after `pause` on `peRun`). -/
def pePaused : PE :=
  { callback := 1, interval := 5, isRunning := true, isPaused := true,
    expiry := 40, armed := false, hasWorker := true, workGuard := true,
    ioStopped := false }

/-- One public lifecycle call, as issued by a controller thread.  `start`
carries the clock reading, the arguments, and whether the worker thread
construction succeeds; `resume` carries the clock reading. -/
inductive Op where
  | start (now interval cb : Nat) (threadOk : Bool)
  | pause
  | resume (now : Nat)
  | stop

/-- Apply one lifecycle call to the instance state. -/
def applyOp (s : PE) : Op → PE
  | .start n i cb tok => (start s n i cb tok).state
  | .pause => pause s
  | .resume n => resume s n
  | .stop => stop s

/-- Run a sequence of lifecycle calls from a given state. -/
def exec (s : PE) (ops : List Op) : PE :=
  ops.foldl applyOp s

/-- The implicit flag invariant: the paused flag is only ever set while the
running flag is set. -/
def pausedImpRunning (s : PE) : Prop :=
  s.isPaused = true → s.isRunning = true

/-- The spec's wake transition of the loop state machine (spec.md, section
4.2, loop shape): on a cancelled wait or with the paused flag set, terminate
without rescheduling; on `Fired`, invoke the callback once, compute
`next_anchor = anchor + interval`, and transition to `Waiting(next_anchor)`. -/
def specWakeStep (s : PE) (cancelled : Bool) : PE × Nat :=
  if cancelled || s.isPaused then ({ s with armed := false }, 0)
  else ({ s with expiry := s.expiry + s.interval, armed := true }, 1)

lemma handle_wait_fired_interval (s : PE) (n : Nat) :
    (handle_wait s false n).1.interval = s.interval := by
  unfold handle_wait
  by_cases h : s.isPaused <;> simp [h]

lemma handle_wait_fired_isPaused (s : PE) (n : Nat) :
    (handle_wait s false n).1.isPaused = s.isPaused := by
  unfold handle_wait
  by_cases h : s.isPaused <;> simp [h]

lemma firedWakes_expiry (s : PE) (nows : List Nat) (hp : s.isPaused = false) :
    (firedWakes s nows).expiry = s.expiry + nows.length * s.interval := by
  induction nows generalizing s with
  | nil => simp [firedWakes]
  | cons n rest ih =>
    have hstep : (handle_wait s false n).1 =
        { s with expiry := s.expiry + s.interval, armed := true } := by
      unfold handle_wait
      simp [hp]
    have hp' : (handle_wait s false n).1.isPaused = false := by
      rw [hstep]
      exact hp
    calc (firedWakes s (n :: rest)).expiry
        = (firedWakes (handle_wait s false n).1 rest).expiry := by
          simp [firedWakes]
      _ = (handle_wait s false n).1.expiry
            + rest.length * (handle_wait s false n).1.interval := ih _ hp'
      _ = s.expiry + s.interval + rest.length * s.interval := by rw [hstep]
      _ = s.expiry + (n :: rest).length * s.interval := by
          simp [List.length_cons, Nat.succ_mul]
          ring

/-- C1: while Running (paused flag clear), every fired wake re-arms the timer
at `previous_anchor + interval` — never at `now + interval` — so after `k`
fired wakes, at arbitrary wake instants, the scheduled anchor is exactly the
initial anchor plus `k` times the interval. -/
theorem anti_drift_anchor_grid (s : PE) (nows : List Nat)
    (hp : s.isPaused = false) :
    (firedWakes s nows).expiry = s.expiry + nows.length * s.interval :=
  firedWakes_expiry s nows hp

theorem anti_drift_anchor_grid_witness :
    peRun.isPaused = false ∧
    (firedWakes peRun [103, 250, 251]).expiry = 40 + 3 * 5 :=
  ⟨by decide, anti_drift_anchor_grid peRun [103, 250, 251] (by decide)⟩

/-- C2: the wake handler implements the spec's loop state machine: on an
aborted wait or with the paused flag set it performs zero callback
invocations and does not re-arm; otherwise it performs exactly one
invocation and re-arms for the next anchor. -/
theorem handle_wait_refines_spec (s : PE) (aborted : Bool) (now : Nat) :
    handle_wait s aborted now = specWakeStep s aborted := by
  unfold handle_wait specWakeStep
  rfl

/-- C3: whenever the instance is already active — `is_running_` is set, which
covers both `Running` and `Paused` since the paused flag is only set while
running — `start` returns `false` and leaves every data member unchanged. -/
theorem start_when_active_unchanged (s : PE) (now interval cb : Nat)
    (tok : Bool) (h : s.isRunning = true) :
    start s now interval cb tok = .ok false s := by
  unfold start
  simp [h]

theorem start_when_active_unchanged_witness :
    peRun.isRunning = true ∧
    start peRun 90 9 2 true = .ok false peRun :=
  ⟨by decide, start_when_active_unchanged peRun 90 9 2 true (by decide)⟩

/-- C4: `stop` is idempotent: from a state no longer running it is a no-op,
a second call reproduces the state after the first exactly, and after one
call both flags are clear (here the paused flag needs the reachable-state
invariant that paused implies running). -/
theorem stop_idempotent (s : PE) (hinv : s.isPaused = true → s.isRunning = true) :
    stop (stop s) = stop s ∧
    (stop s).isRunning = false ∧ (stop s).isPaused = false ∧
    (s.isRunning = false → stop s = s) := by
  unfold stop
  by_cases hr : s.isRunning
  · simp [hr]
  · have hp : s.isPaused = false := by
      cases h : s.isPaused
      · rfl
      · exact absurd (hinv h) hr
    simp [hr, hp]

theorem stop_idempotent_witness :
    (pePaused.isPaused = true → pePaused.isRunning = true) ∧
    (stop (stop pePaused) = stop pePaused ∧
     (stop pePaused).isRunning = false ∧ (stop pePaused).isPaused = false ∧
     (pePaused.isRunning = false → stop pePaused = pePaused)) :=
  ⟨by decide, stop_idempotent pePaused (by decide)⟩

/-- C5: `resume` is a no-op unless the instance is Paused (running flag set
and paused flag set); from Paused it clears the paused flag and re-arms the
wait at a fresh anchor `now + interval`, discarding the pre-pause phase
(the old expiry plays no part in the new one). -/
theorem resume_fresh_anchor (s : PE) (now : Nat) :
    (¬(s.isRunning = true ∧ s.isPaused = true) → resume s now = s) ∧
    (s.isRunning = true → s.isPaused = true →
      resume s now
        = { s with isPaused := false, expiry := now + s.interval,
                   armed := true }) := by
  constructor
  · intro h
    unfold resume
    cases hr : s.isRunning
    · simp
    · cases hp : s.isPaused
      · simp
      · exact absurd ⟨hr, hp⟩ h
  · intro hr hp
    unfold resume
    simp [hr, hp]

theorem resume_fresh_anchor_witness :
    resume pePaused 93
      = { pePaused with isPaused := false, expiry := 93 + pePaused.interval,
                        armed := true } :=
  (resume_fresh_anchor pePaused 93).2 (by decide) (by decide)

/-- Timed semantics of one loop iteration driven by `handle_wait`, over a
pair (instance state, current instant).  A pending `steady_timer` wait on
expiry `e` at instant `t` completes at `max e t` — immediately when the
expiry already lies in the past.  The handler then runs (`handle_wait`,
fired), and the callback occupies `d` units of time, after which the next
pending wait is considered. -/
def stepTimed (sn : PE × Nat) (d : Nat) : PE × Nat :=
  let w := max sn.1.expiry sn.2
  ((handle_wait sn.1 false w).1, w + d)

/-- Timed semantics of a run of iterations with the listed callback
durations. -/
def runTimed (sn : PE × Nat) (ds : List Nat) : PE × Nat :=
  ds.foldl stepTimed sn

lemma stepTimed_state (s : PE) (t d : Nat) (hp : s.isPaused = false) :
    stepTimed (s, t) d
      = ({ s with expiry := s.expiry + s.interval, armed := true },
         max s.expiry t + d) := by
  unfold stepTimed handle_wait
  simp [hp]

lemma runTimed_expiry (s : PE) (t : Nat) (ds : List Nat)
    (hp : s.isPaused = false) :
    (runTimed (s, t) ds).1.expiry = s.expiry + ds.length * s.interval := by
  induction ds generalizing s t with
  | nil => simp [runTimed]
  | cons d rest ih =>
    have hrw : runTimed (s, t) (d :: rest) = runTimed (stepTimed (s, t) d) rest := by
      simp [runTimed]
    rw [hrw, stepTimed_state s t d hp]
    rw [ih _ _ (by simpa using hp)]
    simp [List.length_cons, Nat.succ_mul]
    ring

/-- C6: overrun policy.  While Running, if the callback of an iteration
takes longer than the interval (`interval < d`), the re-armed anchor lies
strictly in the past of the new current instant, so the next wait completes
immediately (`max` picks the current instant): invocations run back to
back.  And independently of the durations — and so of the current time —
every re-arm advances the anchor by exactly one interval, so a run of `k`
iterations moves the anchor by exactly `k` intervals: missed ticks are
never skipped. -/
theorem overrun_burst_no_skip (s : PE) (t d : Nat)
    (hp : s.isPaused = false) (hd : s.interval < d) :
    ((stepTimed (s, t) d).1.expiry < (stepTimed (s, t) d).2 ∧
     max (stepTimed (s, t) d).1.expiry (stepTimed (s, t) d).2
       = (stepTimed (s, t) d).2 ∧
     (stepTimed (s, t) d).1.expiry = s.expiry + s.interval) ∧
    ∀ ds : List Nat,
      (runTimed (s, t) ds).1.expiry = s.expiry + ds.length * s.interval := by
  rw [stepTimed_state s t d hp]
  have hlt : s.expiry + s.interval < max s.expiry t + d := by
    have h1 : s.expiry + s.interval < s.expiry + d := by
      exact Nat.add_lt_add_left hd s.expiry
    have h2 : s.expiry + d ≤ max s.expiry t + d := by
      exact Nat.add_le_add_right (Nat.le_max_left s.expiry t) d
    exact Nat.lt_of_lt_of_le h1 h2
  refine ⟨⟨hlt, Nat.max_eq_right (Nat.le_of_lt hlt), rfl⟩, ?_⟩
  intro ds
  exact runTimed_expiry s t ds hp

theorem overrun_burst_no_skip_witness :
    peRun.isPaused = false ∧ peRun.interval < 12 ∧
    (((stepTimed (peRun, 41) 12).1.expiry < (stepTimed (peRun, 41) 12).2 ∧
      max (stepTimed (peRun, 41) 12).1.expiry (stepTimed (peRun, 41) 12).2
        = (stepTimed (peRun, 41) 12).2 ∧
      (stepTimed (peRun, 41) 12).1.expiry = peRun.expiry + peRun.interval) ∧
     ∀ ds : List Nat,
       (runTimed (peRun, 41) ds).1.expiry
         = peRun.expiry + ds.length * peRun.interval) :=
  ⟨by decide, by decide, overrun_burst_no_skip peRun 41 12 (by decide) (by decide)⟩

/-- C7 counterexample: with the worker-thread construction failing, `start`
on the freshly constructed instance propagates the failure, yet the
instance does not remain in its pre-start state: the running flag has been
set and the timer armed before the launch was attempted, and neither is
rolled back. -/
theorem start_thread_failure_not_rolled_back :
    (start pe0 10 5 1 false).state.isRunning = true ∧
    (start pe0 10 5 1 false).state.armed = true ∧
    pe0.isRunning = false ∧ pe0.armed = false ∧
    (start pe0 10 5 1 false).state ≠ pe0 := by
  decide

/-- C7 amended: if the worker thread cannot be created, the failure does
surface to the caller of `start` (the exception propagates, no `Bool` is
returned), but the instance is left with every mutation made before the
launch attempt still in place: callback and interval recorded, running flag
set, paused flag cleared, timer armed at `now + interval`; only the worker
itself is missing. -/
theorem start_thread_failure_state (s : PE) (now interval cb : Nat)
    (h : s.isRunning = false) :
    start s now interval cb false
      = .threadFail
          { s with callback := cb, interval := interval, isRunning := true,
                   isPaused := false, expiry := now + interval,
                   armed := true } := by
  unfold start
  simp [h]

theorem start_thread_failure_state_witness :
    pe0.isRunning = false ∧
    start pe0 10 5 1 false
      = .threadFail
          { pe0 with callback := 1, interval := 5, isRunning := true,
                     isPaused := false, expiry := 10 + 5, armed := true } :=
  ⟨by decide, start_thread_failure_state pe0 10 5 1 (by decide)⟩

/-- How a data member is protected for cross-thread use. -/
inductive SyncKind where
  | plainField
  | atomicField
  | mutexGuarded
  deriving DecidableEq

/-- A member declaration together with how it is protected and whether it
crosses the controller/worker thread boundary. -/
structure MemberDecl where
  name : String
  sync : SyncKind
  controllerWrites : Bool
  workerTouches : Bool
  deriving DecidableEq

/-- The cross-thread state of `PeriodicExecutor`, transcribed from the
member declarations (PeriodicExecutor.hpp, lines 117-132) and their uses:
`is_running_` and `is_paused_` are declared `bool` with no `std::atomic`
wrapper, and the class has no mutex member at all; `is_paused_` is written
by `pause`/`resume`/`stop` on controller threads and read by `handle_wait`
on the worker; `is_running_` is written by `start`/`stop` on controller
threads; the timer holding the anchor is cancelled by `pause`/`stop` on
controller threads and re-armed by `handle_wait` on the worker, with no
lock around either side. -/
def sharedMembers : List MemberDecl :=
  [ { name := "is_running_", sync := .plainField,
      controllerWrites := true, workerTouches := false },
    { name := "is_paused_", sync := .plainField,
      controllerWrites := true, workerTouches := true },
    { name := "timer_(anchor)", sync := .plainField,
      controllerWrites := true, workerTouches := true } ]

/-- C8 (refuting the claim, confirming the defect the spec flags): none of
the cross-thread members of `PeriodicExecutor` is synchronized — every one
is a plain field, and in particular the paused flag is written by
controller threads and read by the worker with no atomic or mutex. -/
theorem shared_flags_unsynchronized :
    (∀ m ∈ sharedMembers, m.sync = SyncKind.plainField) ∧
    ({ name := "is_paused_", sync := .plainField, controllerWrites := true,
       workerTouches := true } : MemberDecl) ∈ sharedMembers := by
  decide

lemma start_state_inv (s : PE) (n i cb : Nat) (tok : Bool)
    (_h : pausedImpRunning s) : pausedImpRunning (start s n i cb tok).state := by
  unfold pausedImpRunning
  unfold start StartResult.state
  by_cases hr : s.isRunning
  · simp [hr]
  · cases tok <;> simp [hr]

lemma pause_inv (s : PE) (h : pausedImpRunning s) :
    pausedImpRunning (pause s) := by
  unfold pausedImpRunning at h ⊢
  unfold pause
  by_cases hr : s.isRunning
  · by_cases hp : s.isPaused
    · simp [hr, hp]
    · simp [hr, hp]
  · simpa [hr] using h

lemma resume_inv (s : PE) (n : Nat) (h : pausedImpRunning s) :
    pausedImpRunning (resume s n) := by
  unfold pausedImpRunning at h ⊢
  unfold resume
  by_cases hr : s.isRunning
  · by_cases hp : s.isPaused
    · simp [hr, hp]
    · simp [hr, hp]
  · simpa [hr] using h

lemma stop_inv (s : PE) (h : pausedImpRunning s) :
    pausedImpRunning (stop s) := by
  unfold pausedImpRunning at h ⊢
  unfold stop
  by_cases hr : s.isRunning
  · simp [hr]
  · simpa [hr] using h

lemma applyOp_inv (s : PE) (op : Op) (h : pausedImpRunning s) :
    pausedImpRunning (applyOp s op) := by
  cases op with
  | start n i cb tok => exact start_state_inv s n i cb tok h
  | pause => exact pause_inv s h
  | resume n => exact resume_inv s n h
  | stop => exact stop_inv s h

lemma exec_inv (s : PE) (ops : List Op) (h : pausedImpRunning s) :
    pausedImpRunning (exec s ops) := by
  induction ops generalizing s with
  | nil => exact h
  | cons op rest ih =>
    have : exec s (op :: rest) = exec (applyOp s op) rest := by
      simp [exec]
    rw [this]
    exact ih _ (applyOp_inv s op h)

lemma stop_isRunning_false (s : PE) : (stop s).isRunning = false := by
  unfold stop
  by_cases hr : s.isRunning <;> simp [hr]

lemma stop_isPaused_false (s : PE) (h : pausedImpRunning s) :
    (stop s).isPaused = false := by
  unfold stop
  by_cases hr : s.isRunning
  · simp [hr]
  · have hp : s.isPaused = false := by
      cases hps : s.isPaused
      · rfl
      · exact absurd (h hps) hr
    simp [hr, hp]

/-- C9: after any history of lifecycle calls that ends in a completed
`stop`, both flags are clear, so a subsequent `start` passes the
already-active guard and returns `true`. -/
theorem restart_after_stop (ops : List Op) (now interval cb : Nat) :
    (exec pe0 (ops ++ [Op.stop])).isRunning = false ∧
    (exec pe0 (ops ++ [Op.stop])).isPaused = false ∧
    (start (exec pe0 (ops ++ [Op.stop])) now interval cb true).succeeded
      = true := by
  have happ : exec pe0 (ops ++ [Op.stop]) = stop (exec pe0 ops) := by
    simp [exec, applyOp]
  have hinv : pausedImpRunning (exec pe0 ops) :=
    exec_inv pe0 ops (by intro h; cases h)
  have hr : (exec pe0 (ops ++ [Op.stop])).isRunning = false := by
    rw [happ]; exact stop_isRunning_false _
  refine ⟨hr, ?_, ?_⟩
  · rw [happ]
    exact stop_isPaused_false _ hinv
  · unfold start StartResult.succeeded
    simp [hr]

/-- C10: the paused flag implies the running flag in every state reachable
from the freshly constructed instance by lifecycle calls, and each of the
four operations preserves that invariant from any state satisfying it. -/
theorem paused_implies_running (_u : Unit) :
    (∀ ops : List Op, pausedImpRunning (exec pe0 ops)) ∧
    (∀ (s : PE) (n i cb : Nat) (tok : Bool),
      pausedImpRunning s → pausedImpRunning (start s n i cb tok).state) ∧
    (∀ s : PE, pausedImpRunning s → pausedImpRunning (pause s)) ∧
    (∀ (s : PE) (n : Nat),
      pausedImpRunning s → pausedImpRunning (resume s n)) ∧
    (∀ s : PE, pausedImpRunning s → pausedImpRunning (stop s)) :=
  ⟨fun ops => exec_inv pe0 ops (by intro h; cases h),
   start_state_inv, pause_inv, resume_inv, stop_inv⟩

theorem paused_implies_running_witness :
    (exec pe0 [Op.start 0 5 1 true, Op.pause]).isRunning = true :=
  (paused_implies_running ()).1 [Op.start 0 5 1 true, Op.pause] (by decide)
